import Mathlib

/-!
Verification of the HTTP client trust-configuration subsystem
(`http.go` of the utils repository): client factory with selectable TLS
verification policy, certificate trust pools, Basic-Auth header
encode/decode, and the loopback-only dial gate.

Go strings are modelled as lists of byte values (`List Nat`, each < 256
where it matters).  External standard-library routines used by the code
(`encoding/base64`, `strings.Fields`, `strings.SplitN`,
`net.SplitHostPort`, `net.ParseIP`, `IP.IsLoopback`) are embedded
faithfully from their Go sources; PEM/X.509 certificate parsing
(`x509.CertPool.AppendCertsFromPEM`) is abstracted over the per-block
parse outcomes, since its internals are irrelevant to the repository's
logic.
-/

namespace GoUtils

/-! ### strings.Fields (whitespace splitting, ASCII byte model) -/

/-- `unicode.IsSpace` restricted to single-byte (ASCII) characters:
space, tab, newline, vertical tab, form feed, carriage return. -/
def isSpaceByte (c : Nat) : Bool :=
  c = 32 || c = 9 || c = 10 || c = 11 || c = 12 || c = 13

/-- Worker for `fields`: accumulates the current word in reverse. -/
def fieldsAux : List Nat → List Nat → List (List Nat)
  | [], acc => if acc = [] then [] else [acc.reverse]
  | c :: rest, acc =>
    if isSpaceByte c then
      if acc = [] then fieldsAux rest [] else acc.reverse :: fieldsAux rest []
    else fieldsAux rest (c :: acc)

/-- `strings.Fields`: split around runs of whitespace. -/
def fields (s : List Nat) : List (List Nat) := fieldsAux s []

/-! ### encoding/base64 StdEncoding -/

/-- The standard base64 alphabet: index 0–63 to ASCII code. -/
def b64char (n : Nat) : Nat :=
  if n < 26 then 65 + n
  else if n < 52 then 97 + (n - 26)
  else if n < 62 then 48 + (n - 52)
  else if n = 62 then 43
  else 47

/-- Inverse alphabet lookup (`decodeMap`): ASCII code to 6-bit value. -/
def b64val (c : Nat) : Option Nat :=
  if 65 ≤ c ∧ c ≤ 90 then some (c - 65)
  else if 97 ≤ c ∧ c ≤ 122 then some (26 + (c - 97))
  else if 48 ≤ c ∧ c ≤ 57 then some (52 + (c - 48))
  else if c = 43 then some 62
  else if c = 47 then some 63
  else none

/-- `base64.StdEncoding.EncodeToString`: 3 bytes to 4 chars, with
`=` (61) padding for a 1- or 2-byte tail. -/
def b64encode : List Nat → List Nat
  | [] => []
  | [x] => [b64char (x / 4), b64char (x % 4 * 16), 61, 61]
  | [x, y] => [b64char (x / 4), b64char (x % 4 * 16 + y / 16), b64char (y % 16 * 4), 61]
  | x :: y :: z :: rest =>
    b64char (x / 4) :: b64char (x % 4 * 16 + y / 16) ::
      b64char (y % 16 * 4 + z / 64) :: b64char (z % 64) :: b64encode rest

/-- Quantum-by-quantum decoding of newline-free input: groups of four
characters, `=` padding allowed only at the end of the final group,
nothing after the padding.  Unused trailing bits are not checked
(Go's default non-strict decoder). -/
def b64decodeBlocks : List Nat → Option (List Nat)
  | [] => some []
  | a :: b :: c :: d :: rest =>
    match b64val a, b64val b with
    | some va, some vb =>
      if c = 61 then
        if d = 61 ∧ rest = [] then some [va * 4 + vb / 16] else none
      else
        match b64val c with
        | some vc =>
          if d = 61 then
            if rest = [] then some [va * 4 + vb / 16, vb % 16 * 16 + vc / 4] else none
          else
            match b64val d with
            | some vd =>
              (b64decodeBlocks rest).map
                (fun tail => (va * 4 + vb / 16) :: (vb % 16 * 16 + vc / 4) ::
                  (vc % 4 * 64 + vd) :: tail)
            | none => none
        | none => none
    | _, _ => none
  | _ => none

/-- `base64.StdEncoding.DecodeString`: the decoder skips `\r` and `\n`
wherever they occur and is otherwise strict. -/
def base64Decode (s : List Nat) : Option (List Nat) :=
  b64decodeBlocks (s.filter (fun c => !(c == 10 || c == 13)))

/-! ### strings.SplitN(s, ":", 2) -/

/-- Split at the first colon (58): `some (before, after)`, or `none`
when no colon occurs. -/
def breakColon : List Nat → Option (List Nat × List Nat)
  | [] => none
  | c :: rest =>
    if c = 58 then some ([], rest)
    else
      match breakColon rest with
      | some (u, p) => some (c :: u, p)
      | none => none

/-- `strings.SplitN(s, ":", 2)`: two pieces when a colon occurs,
otherwise the whole string as the single piece. -/
def splitN2Colon (s : List Nat) : List (List Nat) :=
  match breakColon s with
  | some (u, p) => [u, p]
  | none => [s]

/-! ### Basic Auth codec (`BasicAuthHeader`, `ParseBasicAuthHeader`) -/

/-- The bytes of the literal `"Basic"`. -/
def basicLit : List Nat := [66, 97, 115, 105, 99]

/-- An `http.Header` restricted to its `"Authorization"` entry: the list
of values stored under that key (empty = header absent). -/
def headerGet (h : List (List Nat)) : List Nat := h.headD []

/-- `BasicAuthHeader`: `"Basic " + base64(username ":" password)` as the
sole `Authorization` value. -/
def basicAuthHeader (username password : List Nat) : List (List Nat) :=
  [[66, 97, 115, 105, 99, 32] ++ b64encode (username ++ 58 :: password)]

/-- The three error messages of `ParseBasicAuthHeader`. -/
inductive AuthError where
  | invalidHeader    -- "invalid or missing HTTP auth header"
  | invalidEncoding  -- "invalid HTTP auth encoding"
  | invalidContents  -- "invalid HTTP auth contents"
deriving DecidableEq

/-- `ParseBasicAuthHeader`: split the `Authorization` value into
whitespace-separated fields, require exactly `["Basic", token]`,
base64-decode the token, and split the payload at its first colon. -/
def parseBasicAuthHeader (h : List (List Nat)) : Except AuthError (List Nat × List Nat) :=
  match fields (headerGet h) with
  | [p0, p1] =>
    if p0 = basicLit then
      match base64Decode p1 with
      | some challenge =>
        match splitN2Colon challenge with
        | [u, p] => .ok (u, p)
        | _ => .error .invalidContents
      | none => .error .invalidEncoding
    else .error .invalidHeader
  | _ => .error .invalidHeader

/-! ### net.SplitHostPort -/

/-- Index of the first occurrence of byte `b`. -/
def byteIndex : List Nat → Nat → Option Nat
  | [], _ => none
  | c :: rest, b => if c = b then some 0 else (byteIndex rest b).map (· + 1)

/-- Index of the last occurrence of byte `b` (`last` in net/ipsock.go). -/
def lastIndex (s : List Nat) (b : Nat) : Option Nat :=
  (byteIndex s.reverse b).map (fun i => s.length - 1 - i)

/-- `net.SplitHostPort`: the port starts after the last colon; a
bracketed host `[h]:port` has its brackets stripped; every error return
(missing port, too many colons, missing or stray brackets) is `none`. -/
def splitHostPort (hostPort : List Nat) : Option (List Nat × List Nat) :=
  match lastIndex hostPort 58 with
  | none => none
  | some i =>
    if hostPort.headD 0 = 91 then
      match byteIndex hostPort 93 with
      | none => none
      | some e =>
        if e + 1 = hostPort.length then none
        else if e + 1 = i then
          if (byteIndex (hostPort.drop 1) 91).isSome then none
          else if (byteIndex (hostPort.drop (e + 1)) 93).isSome then none
          else some ((hostPort.take e).drop 1, hostPort.drop (i + 1))
        else none
    else
      if (byteIndex (hostPort.take i) 58).isSome then none
      else if (byteIndex hostPort 91).isSome then none
      else if (byteIndex hostPort 93).isSome then none
      else some (hostPort.take i, hostPort.drop (i + 1))

/-! ### net.ParseIP and IP.IsLoopback

An `IP` is its byte slice: length 4 or 16.  `parseIPv4` returns the
16-byte IPv4-in-IPv6 form exactly as Go's `IPv4()` constructor does. -/

/-- `v4InV6Prefix`: the 12 leading bytes of an IPv4-mapped address. -/
def v4InV6Head : List Nat := [0, 0, 0, 0, 0, 0, 0, 0, 0, 0, 255, 255]

/-- Decimal-prefix parser `dtoi`: accumulated value, digit-seen flag;
`none` on no digits or on reaching `big` (0xFFFFFF). -/
def dtoiGo : List Nat → Nat → Bool → Option (Nat × List Nat)
  | [], n, seen => if seen then some (n, []) else none
  | c :: rest, n, seen =>
    if 48 ≤ c ∧ c ≤ 57 then
      let n2 := n * 10 + (c - 48)
      if n2 ≥ 0xFFFFFF then none else dtoiGo rest n2 true
    else if seen then some (n, c :: rest) else none

/-- `dtoi`: parse a decimal prefix, returning the value and the rest. -/
def dtoi (s : List Nat) : Option (Nat × List Nat) := dtoiGo s 0 false

/-- Hexadecimal-prefix parser `xtoi` (same overflow bound as `dtoi`). -/
def xtoiGo : List Nat → Nat → Bool → Option (Nat × List Nat)
  | [], n, seen => if seen then some (n, []) else none
  | c :: rest, n, seen =>
    if 48 ≤ c ∧ c ≤ 57 then
      let n2 := n * 16 + (c - 48)
      if n2 ≥ 0xFFFFFF then none else xtoiGo rest n2 true
    else if 97 ≤ c ∧ c ≤ 102 then
      let n2 := n * 16 + (c - 97) + 10
      if n2 ≥ 0xFFFFFF then none else xtoiGo rest n2 true
    else if 65 ≤ c ∧ c ≤ 70 then
      let n2 := n * 16 + (c - 65) + 10
      if n2 ≥ 0xFFFFFF then none else xtoiGo rest n2 true
    else if seen then some (n, c :: rest) else none

/-- `xtoi`: parse a hexadecimal prefix, returning value and rest. -/
def xtoi (s : List Nat) : Option (Nat × List Nat) := xtoiGo s 0 false

/-- The four-field loop of `parseIPv4`: remaining input, remaining field
count, accumulated octets in reverse.  Fields after the first must be
preceded by a dot (46); each octet is `dtoi`-parsed and must be ≤ 255;
the whole input must be consumed. -/
def parseIPv4Loop : List Nat → Nat → List Nat → Option (List Nat)
  | s, 0, acc => if s = [] then some (v4InV6Head ++ acc.reverse) else none
  | s, k + 1, acc =>
    if s = [] then none
    else
      match (if acc.length = 0 then some s else
        match s with
        | 46 :: r => some r
        | _ => none) with
      | none => none
      | some s2 =>
        match dtoi s2 with
        | none => none
        | some (n, s3) =>
          if n > 255 then none
          else parseIPv4Loop s3 k (n :: acc)

/-- `parseIPv4`: dotted-decimal, exactly four octets. -/
def parseIPv4 (s : List Nat) : Option (List Nat) := parseIPv4Loop s 4 []

/-- End-of-loop assembly of `parseIPv6`: any unconsumed input is an
error; a short address needs an ellipsis, which expands to zeros in the
middle; a full 16-byte address must not also have an ellipsis. -/
def parseIPv6Finish (s : List Nat) (acc : List Nat) (ell : Option Nat) : Option (List Nat) :=
  if s ≠ [] then none
  else if acc.length < 16 then
    match ell with
    | none => none
    | some e => some (acc.take e ++ List.replicate (16 - acc.length) 0 ++ acc.drop e)
  else
    match ell with
    | some _ => none
    | none => some acc

/-- The main loop of `parseIPv6`: fuel counts the remaining 16-bit
groups (the Go loop runs while `i < 16` with `i` advancing by two bytes
per iteration); `acc` holds the bytes produced so far and `ell` the
ellipsis position.  A dot right after a group switches to a trailing
embedded IPv4 address. -/
def parseIPv6Loop : Nat → List Nat → List Nat → Option Nat → Option (List Nat)
  | 0, s, acc, ell => parseIPv6Finish s acc ell
  | fuel + 1, s, acc, ell =>
    match xtoi s with
    | none => none
    | some (n, rest) =>
      if n > 0xFFFF then none
      else
        match rest with
        | 46 :: _ =>
          if (ell = none ∧ acc.length ≠ 12) ∨ acc.length > 12 then none
          else
            match parseIPv4 s with
            | none => none
            | some ip4 => parseIPv6Finish [] (acc ++ ip4.drop 12) ell
        | [] => parseIPv6Finish [] (acc ++ [n / 256, n % 256]) ell
        | 58 :: rest2 =>
          if rest2 = [] then none
          else
            match rest2 with
            | 58 :: rest3 =>
              if ell ≠ none then none
              else if rest3 = [] then
                parseIPv6Finish [] (acc ++ [n / 256, n % 256]) (some (acc.length + 2))
              else
                parseIPv6Loop fuel rest3 (acc ++ [n / 256, n % 256]) (some (acc.length + 2))
            | _ => parseIPv6Loop fuel rest2 (acc ++ [n / 256, n % 256]) ell
        | _ => none

/-- `parseIPv6` (zones disallowed): an optional leading `::`, then the
group loop. -/
def parseIPv6 (s : List Nat) : Option (List Nat) :=
  match s with
  | 58 :: 58 :: rest =>
    if rest = [] then some (List.replicate 16 0)
    else parseIPv6Loop 8 rest [] (some 0)
  | _ => parseIPv6Loop 8 s [] none

/-- Scan for the first dot or colon (`net.ParseIP`'s dispatch):
`some true` = dot first (IPv4), `some false` = colon first (IPv6). -/
def firstDotColon : List Nat → Option Bool
  | [] => none
  | 46 :: _ => some true
  | 58 :: _ => some false
  | _ :: rest => firstDotColon rest

/-- `net.ParseIP`: IPv4 on a dot, IPv6 on a colon, otherwise nil
(`none`). -/
def parseIP (s : List Nat) : Option (List Nat) :=
  match firstDotColon s with
  | some true => parseIPv4 s
  | some false => parseIPv6 s
  | none => none

/-- `IP.To4`: a 4-byte slice as is; a 16-byte slice iff it carries the
IPv4-in-IPv6 head; otherwise nil. -/
def ipTo4 (ip : List Nat) : Option (List Nat) :=
  if ip.length = 4 then some ip
  else if ip.length = 16 ∧ ip.take 12 = v4InV6Head then some (ip.drop 12)
  else none

/-- `net.IPv6loopback` (`::1`). -/
def ipv6Loopback : List Nat := List.replicate 15 0 ++ [1]

/-- `IP.IsLoopback`: first octet 127 when IPv4(-mapped), else equality
with `::1`. -/
def isLoopback (ip : List Nat) : Bool :=
  match ipTo4 ip with
  | some ip4 => ip4.headD 0 == 127
  | none => ip == ipv6Loopback

/-- `IsLoopback` lifted to the nilable result of `ParseIP`:
`nil.IsLoopback()` is false. -/
def ipIsLoopback : Option (List Nat) → Bool
  | none => false
  | some ip => isLoopback ip

/-! ### The dial gate -/

/-- The bytes of the literal `"localhost"`. -/
def localhostBytes : List Nat := [108, 111, 99, 97, 108, 104, 111, 115, 116]

/-- `isLocalAddr`: split off the port (errors fail closed), then the
host must be `"localhost"` or parse to a loopback IP. -/
def isLocalAddr (addr : List Nat) : Bool :=
  match splitHostPort addr with
  | none => false
  | some (host, _) => host == localhostBytes || ipIsLoopback (parseIP host)

/-- The initializer of the package-level `OutgoingAccessAllowed`
variable. -/
def outgoingAccessAllowedDefault : Bool := true

/-- The dial gate's failure. -/
inductive DialError where
  | connectionRefused
deriving DecidableEq

/-- Modelled from the spec: the dial check installed by
`installHTTPDialShim` (not under src/) fails with `ConnectionRefused`
when `OutgoingAccessAllowed` is false and the address is not local, and
otherwise lets the dial proceed. -/
def allowDial (outgoingAccessAllowed : Bool) (addr : List Nat) : Except DialError Unit :=
  if !outgoingAccessAllowed && !isLocalAddr addr then .error .connectionRefused
  else .ok ()

/-! ### TLS configuration and the client factory

`Cert` abstracts a parsed X.509 certificate; `pemParse` abstracts the
per-block outcomes (`none` = skipped block) of the `pem.Decode` /
`x509.ParseCertificate` loop inside `AppendCertsFromPEM`, which is
external library code. -/

/-- The fields of `tls.Config` the repository touches.  The two
`Restricted` flags stand for the protocol-version floor and the cipher
suite list; a pool is `some` when `RootCAs` is set. -/
structure TLSConfig (Cert : Type) where
  minVersionRestricted : Bool
  cipherSuitesRestricted : Bool
  insecureSkipVerify : Bool
  rootCAs : Option (List Cert)
deriving DecidableEq

/-- Modelled from the spec: `SecureTLSConfig` (the TLS Config Builder,
not under src/) returns a baseline with protocol/cipher restrictions
fixed, verification on, and no trust pool. -/
def SecureTLSConfig (Cert : Type) : TLSConfig Cert :=
  { minVersionRestricted := true
    cipherSuitesRestricted := true
    insecureSkipVerify := false
    rootCAs := none }

/-- An `http.Transport` as the repository configures it. -/
structure Transport (Cert : Type) where
  tlsConfig : TLSConfig Cert
  dialGated : Bool
deriving DecidableEq

variable {Cert : Type}

/-- Modelled from the spec: `NewHttpTLSTransport` (not under src/)
wraps a TLS configuration in a transport whose dials go through the
dial gate. -/
def NewHttpTLSTransport (c : TLSConfig Cert) : Transport Cert :=
  { tlsConfig := c, dialGated := true }

/-- An `http.Client`: `transport = none` is the default transport of
`&http.Client{}`. -/
structure HTTPClient (Cert : Type) where
  transport : Option (Transport Cert)
deriving DecidableEq

/-- `SSLHostnameVerification` is a bool; `VerifySSLHostnames = true`. -/
def VerifySSLHostnames : Bool := true

/-- `NoVerifySSLHostnames = false`. -/
def NoVerifySSLHostnames : Bool := false

/-- `x509.CertPool.AppendCertsFromPEM` on one input string: the blocks
that parse are appended to the pool in order, failures are skipped, the
returned bool is ignored by the caller. -/
def appendCertsFromPEM (pemParse : List Nat → List (Option Cert))
    (pool : List Cert) (pemCerts : List Nat) : List Cert :=
  pool ++ (pemParse pemCerts).filterMap id

/-- The pool built by `getHTTPClientWithCerts`: `x509.NewCertPool()`
then `AppendCertsFromPEM` on each certificate string. -/
def buildPool (pemParse : List Nat → List (Option Cert))
    (certs : List (List Nat)) : List Cert :=
  certs.foldl (appendCertsFromPEM pemParse) []

/-- `GetValidatingHTTPClient`: `&http.Client{}`. -/
def GetValidatingHTTPClient : HTTPClient Cert := { transport := none }

/-- `GetNonValidatingHTTPClient`: a transport over a zero-value
`tls.Config` with only `InsecureSkipVerify` set. -/
def GetNonValidatingHTTPClient : HTTPClient Cert :=
  { transport := some (NewHttpTLSTransport
      { minVersionRestricted := false
        cipherSuitesRestricted := false
        insecureSkipVerify := true
        rootCAs := none }) }

/-- `getHTTPClientWithCerts`: nil (`none`) without certificates;
otherwise the secure baseline with `RootCAs` set to the built pool and,
under `NoVerifySSLHostnames`, `InsecureSkipVerify` switched on. -/
def getHTTPClientWithCerts (pemParse : List Nat → List (Option Cert))
    (verify : Bool) (certs : List (List Nat)) : Option (HTTPClient Cert) :=
  if certs.length = 0 then none
  else
    let pool := buildPool pemParse certs
    let tlsConfig0 := SecureTLSConfig Cert
    let tlsConfig1 := { tlsConfig0 with rootCAs := some pool }
    let tlsConfig2 :=
      if verify = NoVerifySSLHostnames then
        { tlsConfig1 with insecureSkipVerify := true }
      else tlsConfig1
    some { transport := some (NewHttpTLSTransport tlsConfig2) }

/-- `GetHTTPClient`: with certificates delegate to the helper, else the
validating or non-validating client according to `verify`. -/
def GetHTTPClient (pemParse : List Nat → List (Option Cert))
    (verify : Bool) (certs : List (List Nat)) : Option (HTTPClient Cert) :=
  if certs.length > 0 then getHTTPClientWithCerts pemParse verify certs
  else if verify = VerifySSLHostnames then some GetValidatingHTTPClient
  else some GetNonValidatingHTTPClient

/-- The TLS configuration reachable from a factory result (none for a
nil client or the default transport). -/
def clientTLSConfig : Option (HTTPClient Cert) → Option (TLSConfig Cert)
  | some cl =>
    match cl.transport with
    | some t => some t.tlsConfig
    | none => none
  | none => none

/-! ## Theorems -/

/-- Unfolding the with-certs factory branch on a non-empty list. -/
theorem getHTTPClient_cons (pemParse : List Nat → List (Option Cert))
    (verify : Bool) (c : List Nat) (cs : List (List Nat)) :
    GetHTTPClient pemParse verify (c :: cs) =
      some { transport := some (NewHttpTLSTransport
        { minVersionRestricted := true
          cipherSuitesRestricted := true
          insecureSkipVerify := verify = NoVerifySSLHostnames
          rootCAs := some (buildPool pemParse (c :: cs)) }) } := by
  cases verify <;>
    simp [GetHTTPClient, getHTTPClientWithCerts, SecureTLSConfig,
      NoVerifySSLHostnames, NewHttpTLSTransport]

/-- C1: under `NoVerifySSLHostnames` the resulting configuration always
has `InsecureSkipVerify = true`, pool or no pool; and under
`VerifySSLHostnames` with a non-empty certificate list the
configuration keeps `InsecureSkipVerify = false` with the pool
attached. -/
theorem tls_invariant_noVerify_skips_nonempty_pool_validates
    (Cert : Type) (pemParse : List Nat → List (Option Cert))
    (certs : List (List Nat)) :
    (clientTLSConfig (GetHTTPClient pemParse NoVerifySSLHostnames certs)).map
        (fun cfg => cfg.insecureSkipVerify) = some true
    ∧ (certs ≠ [] →
        clientTLSConfig (GetHTTPClient pemParse VerifySSLHostnames certs) =
          some { minVersionRestricted := true
                 cipherSuitesRestricted := true
                 insecureSkipVerify := false
                 rootCAs := some (buildPool pemParse certs) }) := by
  cases certs with
  | nil =>
    refine ⟨?_, by simp⟩
    simp [GetHTTPClient, GetNonValidatingHTTPClient, NewHttpTLSTransport,
      clientTLSConfig, VerifySSLHostnames, NoVerifySSLHostnames]
  | cons c cs =>
    rw [getHTTPClient_cons, getHTTPClient_cons]
    exact ⟨by simp [clientTLSConfig, NewHttpTLSTransport, NoVerifySSLHostnames],
      fun _ => by simp [clientTLSConfig, NewHttpTLSTransport,
        VerifySSLHostnames, NoVerifySSLHostnames]⟩

/-- Witness for the non-empty-pool half of the C1 theorem. -/
theorem tls_invariant_noVerify_skips_nonempty_pool_validates_witness :
    clientTLSConfig (GetHTTPClient (fun _ => [some 7]) VerifySSLHostnames [[1]]) =
      some { minVersionRestricted := true
             cipherSuitesRestricted := true
             insecureSkipVerify := false
             rootCAs := some (buildPool (fun _ => [some (7 : Nat)]) [[1]]) } :=
  (tls_invariant_noVerify_skips_nonempty_pool_validates Nat
    (fun _ => [some 7]) [[1]]).2 (by decide)

/-- C2: `GetHTTPClient(NoVerifySSLHostnames, certs)` with a non-empty
list sets `InsecureSkipVerify = true` and attaches the pool built from
the certificates at the same time. -/
theorem noVerify_with_certs_keeps_pool
    (Cert : Type) (pemParse : List Nat → List (Option Cert))
    (certs : List (List Nat)) (h : certs ≠ []) :
    clientTLSConfig (GetHTTPClient pemParse NoVerifySSLHostnames certs) =
      some { minVersionRestricted := true
             cipherSuitesRestricted := true
             insecureSkipVerify := true
             rootCAs := some (buildPool pemParse certs) } := by
  cases certs with
  | nil => exact absurd rfl h
  | cons c cs =>
    rw [getHTTPClient_cons]
    simp [clientTLSConfig, NewHttpTLSTransport, NoVerifySSLHostnames]

/-- Witness for C2 at a concrete one-certificate list. -/
theorem noVerify_with_certs_keeps_pool_witness :
    clientTLSConfig (GetHTTPClient (fun _ => [some 7]) NoVerifySSLHostnames [[1]]) =
      some { minVersionRestricted := true
             cipherSuitesRestricted := true
             insecureSkipVerify := true
             rootCAs := some (buildPool (fun _ => [some (7 : Nat)]) [[1]]) } :=
  noVerify_with_certs_keeps_pool Nat (fun _ => [some 7]) [[1]] (by decide)

/-- C3: `OutgoingAccessAllowed` is initialized to `true`, and the dial
gate fails with `ConnectionRefused` exactly when the switch is off and
the address is not local. -/
theorem dialGate_default_true_and_refuses_iff :
    outgoingAccessAllowedDefault = true
    ∧ ∀ (allowed : Bool) (addr : List Nat),
        allowDial allowed addr = .error .connectionRefused ↔
          allowed = false ∧ isLocalAddr addr = false := by
  refine ⟨rfl, fun allowed addr => ?_⟩
  cases allowed <;> cases h : isLocalAddr addr <;> simp [allowDial, h]

/-- The pool accumulator starts from the given pool and appends the
successfully parsed blocks of every certificate string in order. -/
theorem buildPool_foldl_append (pemParse : List Nat → List (Option Cert)) :
    ∀ (certs : List (List Nat)) (pool : List Cert),
      certs.foldl (appendCertsFromPEM pemParse) pool =
        pool ++ (certs.map (fun c => (pemParse c).filterMap id)).flatten
  | [], pool => by simp
  | c :: cs, pool => by
    simp [appendCertsFromPEM, buildPool_foldl_append pemParse cs]

/-- C8: client construction is total — every verification mode and
certificate list (malformed entries included) yields a client — the
pool is exactly the concatenation of the blocks that parsed (malformed
blocks silently skipped), and when nothing parses the pool is empty
rather than an error. -/
theorem construction_never_fails_lenient_pool
    (Cert : Type) (pemParse : List Nat → List (Option Cert))
    (verify : Bool) (certs : List (List Nat)) :
    (GetHTTPClient pemParse verify certs).isSome = true
    ∧ buildPool pemParse certs =
        (certs.map (fun c => (pemParse c).filterMap id)).flatten
    ∧ ((∀ c ∈ certs, (pemParse c).filterMap id = []) →
        buildPool pemParse certs = []) := by
  refine ⟨?_, ?_, ?_⟩
  · cases certs with
    | nil =>
      cases verify <;>
        simp [GetHTTPClient, VerifySSLHostnames]
    | cons c cs => rw [getHTTPClient_cons]; rfl
  · simpa using buildPool_foldl_append pemParse certs []
  · intro hall
    have h := buildPool_foldl_append pemParse certs []
    simp only [buildPool, h, List.nil_append]
    rw [List.flatten_eq_nil_iff]
    intro l hl
    rcases List.mem_map.mp hl with ⟨c, hc, rfl⟩
    exact hall c hc

/-- Witness for C8 at an all-malformed certificate list. -/
theorem construction_never_fails_lenient_pool_witness :
    (GetHTTPClient (fun _ => [(none : Option Nat)]) NoVerifySSLHostnames [[1]]).isSome = true
    ∧ buildPool (fun _ => [(none : Option Nat)]) [[1]] = [] :=
  ⟨(construction_never_fails_lenient_pool Nat (fun _ => [none])
      NoVerifySSLHostnames [[1]]).1,
    (construction_never_fails_lenient_pool Nat (fun _ => [none])
      NoVerifySSLHostnames [[1]]).2.2 (by decide)⟩

/-- C9 counterexample: `GetHTTPClient(NoVerifySSLHostnames, [])` (the
`GetNonValidatingHTTPClient` branch) builds its transport from a
zero-value `tls.Config` with only `InsecureSkipVerify` set — the
secure baseline's protocol and cipher restrictions are absent. -/
theorem nonValidating_client_lacks_baseline :
    clientTLSConfig (GetHTTPClient (fun _ => ([] : List (Option Nat)))
        NoVerifySSLHostnames []) =
      some { minVersionRestricted := false
             cipherSuitesRestricted := false
             insecureSkipVerify := true
             rootCAs := none } := by
  rfl

/-- C9 amended: only the with-certificates variants start from the
secure baseline; the no-certificates variants do not — the
non-validating client's configuration is the zero `tls.Config` with
`InsecureSkipVerify = true` only, and the validating client uses the
default transport with no custom TLS configuration at all. -/
theorem baseline_only_for_cert_variants :
    (∀ (Cert : Type) (pemParse : List Nat → List (Option Cert))
        (verify : Bool) (certs : List (List Nat)), certs ≠ [] →
        ∃ cfg, clientTLSConfig (GetHTTPClient pemParse verify certs) = some cfg
          ∧ cfg.minVersionRestricted = true ∧ cfg.cipherSuitesRestricted = true)
    ∧ (∀ (Cert : Type) (pemParse : List Nat → List (Option Cert)),
        clientTLSConfig (GetHTTPClient pemParse NoVerifySSLHostnames []) =
          some { minVersionRestricted := false
                 cipherSuitesRestricted := false
                 insecureSkipVerify := true
                 rootCAs := none })
    ∧ (∀ (Cert : Type) (pemParse : List Nat → List (Option Cert)),
        GetHTTPClient pemParse VerifySSLHostnames [] =
          some ({ transport := none } : HTTPClient Cert)) := by
  refine ⟨fun Cert pemParse verify certs h => ?_, fun Cert pemParse => rfl,
    fun Cert pemParse => rfl⟩
  cases certs with
  | nil => exact absurd rfl h
  | cons c cs =>
    rw [getHTTPClient_cons]
    exact ⟨_, rfl, rfl, rfl⟩

/-- Witness for the amended C9 at a concrete certificate list. -/
theorem baseline_only_for_cert_variants_witness :
    ∃ cfg, clientTLSConfig (GetHTTPClient (fun _ => [some 7])
        VerifySSLHostnames [[1]]) = some cfg
      ∧ cfg.minVersionRestricted = true ∧ cfg.cipherSuitesRestricted = true :=
  baseline_only_for_cert_variants.1 Nat (fun _ => [some 7])
    VerifySSLHostnames [[1]] (by decide)

/-- C10: the public factory never returns nil: the helper's
nil-returning branch fires only on an empty certificate list, and
`GetHTTPClient` calls the helper only on a non-empty one. -/
theorem getHTTPClient_never_nil
    (Cert : Type) (pemParse : List Nat → List (Option Cert))
    (verify : Bool) (certs : List (List Nat)) :
    (GetHTTPClient pemParse verify certs).isSome = true
    ∧ getHTTPClientWithCerts pemParse verify ([] : List (List Nat)) =
        (none : Option (HTTPClient Cert))
    ∧ (certs ≠ [] →
        GetHTTPClient pemParse verify certs =
          getHTTPClientWithCerts pemParse verify certs
        ∧ (getHTTPClientWithCerts pemParse verify certs).isSome = true) := by
  refine ⟨(construction_never_fails_lenient_pool Cert pemParse verify certs).1,
    rfl, fun h => ?_⟩
  cases certs with
  | nil => exact absurd rfl h
  | cons c cs =>
    have hcall : GetHTTPClient pemParse verify (c :: cs) =
        getHTTPClientWithCerts pemParse verify (c :: cs) := by
      simp [GetHTTPClient]
    refine ⟨hcall, ?_⟩
    rw [← hcall, getHTTPClient_cons]
    rfl

/-- Witness for C10 at a concrete non-empty list. -/
theorem getHTTPClient_never_nil_witness :
    GetHTTPClient (fun _ => [some (7 : Nat)]) VerifySSLHostnames [[1]] =
        getHTTPClientWithCerts (fun _ => [some 7]) VerifySSLHostnames [[1]]
    ∧ (getHTTPClientWithCerts (fun _ => [some (7 : Nat)])
        VerifySSLHostnames [[1]]).isSome = true :=
  (getHTTPClient_never_nil Nat (fun _ => [some 7])
    VerifySSLHostnames [[1]]).2.2 (by decide)

/-! ### Base64 round-trip -/

/-- Every alphabet character is at least `'+'` (43). -/
theorem b64char_ge_43 (n : Nat) : 43 ≤ b64char n := by
  unfold b64char; split_ifs <;> omega

/-- No alphabet character is the padding character `'='` (61). -/
theorem b64char_ne_61 (n : Nat) : b64char n ≠ 61 := by
  unfold b64char; split_ifs <;> omega

/-- The inverse alphabet lookup undoes the alphabet map on 0–63. -/
theorem b64val_b64char : ∀ n, n < 64 → b64val (b64char n) = some n := by decide

/-- Every byte of an encoding is at least 43 (so never whitespace and
never `\r`/`\n`). -/
theorem b64encode_mem_ge : ∀ (b : List Nat), ∀ c ∈ b64encode b, 43 ≤ c
  | [], c, hc => by simp [b64encode] at hc
  | [x], c, hc => by
    simp only [b64encode, List.mem_cons, List.not_mem_nil, or_false] at hc
    rcases hc with rfl | rfl | rfl | rfl
    · exact b64char_ge_43 _
    · exact b64char_ge_43 _
    · omega
    · omega
  | [x, y], c, hc => by
    simp only [b64encode, List.mem_cons, List.not_mem_nil, or_false] at hc
    rcases hc with rfl | rfl | rfl | rfl
    · exact b64char_ge_43 _
    · exact b64char_ge_43 _
    · exact b64char_ge_43 _
    · omega
  | x :: y :: z :: rest, c, hc => by
    simp only [b64encode, List.mem_cons] at hc
    rcases hc with rfl | rfl | rfl | rfl | h
    · exact b64char_ge_43 _
    · exact b64char_ge_43 _
    · exact b64char_ge_43 _
    · exact b64char_ge_43 _
    · exact b64encode_mem_ge rest c h

/-- Encodings contain no `\r`/`\n`, so the decoder's filter is the
identity on them. -/
theorem b64encode_filter (b : List Nat) :
    (b64encode b).filter (fun c => !(c == 10 || c == 13)) = b64encode b := by
  apply List.filter_eq_self.mpr
  intro c hc
  have := b64encode_mem_ge b c hc
  simp only [Bool.not_eq_eq_eq_not, Bool.not_true, Bool.or_eq_false_iff,
    beq_eq_false_iff_ne, ne_eq]
  omega

/-- Encoding a non-empty byte string is non-empty. -/
theorem b64encode_ne_nil : ∀ (b : List Nat), b ≠ [] → b64encode b ≠ []
  | [], h => absurd rfl h
  | [_], _ => by simp [b64encode]
  | [_, _], _ => by simp [b64encode]
  | _ :: _ :: _ :: _, _ => by simp [b64encode]

/-- Quantum decoding inverts quantum encoding on byte strings. -/
theorem b64decodeBlocks_encode : ∀ (b : List Nat), (∀ c ∈ b, c < 256) →
    b64decodeBlocks (b64encode b) = some b
  | [], _ => rfl
  | [x], hb => by
    have hx : x < 256 := hb x (by simp)
    have h1 : b64val (b64char (x / 4)) = some (x / 4) :=
      b64val_b64char _ (by omega)
    have h2 : b64val (b64char (x % 4 * 16)) = some (x % 4 * 16) :=
      b64val_b64char _ (by omega)
    simp [b64encode, b64decodeBlocks, h1, h2]
    omega
  | [x, y], hb => by
    have hx : x < 256 := hb x (by simp)
    have hy : y < 256 := hb y (by simp)
    have h1 : b64val (b64char (x / 4)) = some (x / 4) :=
      b64val_b64char _ (by omega)
    have h2 : b64val (b64char (x % 4 * 16 + y / 16)) = some (x % 4 * 16 + y / 16) :=
      b64val_b64char _ (by omega)
    have h3 : b64val (b64char (y % 16 * 4)) = some (y % 16 * 4) :=
      b64val_b64char _ (by omega)
    have hne3 : b64char (y % 16 * 4) ≠ 61 := b64char_ne_61 _
    simp [b64encode, b64decodeBlocks, h1, h2, h3, hne3]
    omega
  | x :: y :: z :: rest, hb => by
    have hx : x < 256 := hb x (by simp)
    have hy : y < 256 := hb y (by simp)
    have hz : z < 256 := hb z (by simp)
    have h1 : b64val (b64char (x / 4)) = some (x / 4) :=
      b64val_b64char _ (by omega)
    have h2 : b64val (b64char (x % 4 * 16 + y / 16)) = some (x % 4 * 16 + y / 16) :=
      b64val_b64char _ (by omega)
    have h3 : b64val (b64char (y % 16 * 4 + z / 64)) = some (y % 16 * 4 + z / 64) :=
      b64val_b64char _ (by omega)
    have h4 : b64val (b64char (z % 64)) = some (z % 64) :=
      b64val_b64char _ (by omega)
    have ih := b64decodeBlocks_encode rest (fun c hc => hb c (by simp [hc]))
    have hne3 : b64char (y % 16 * 4 + z / 64) ≠ 61 := b64char_ne_61 _
    have hne4 : b64char (z % 64) ≠ 61 := b64char_ne_61 _
    simp [b64encode, b64decodeBlocks, h1, h2, h3, h4, hne3, hne4, ih]
    omega

/-- `DecodeString` inverts `EncodeToString` on byte strings. -/
theorem base64Decode_encode (b : List Nat) (hb : ∀ c ∈ b, c < 256) :
    base64Decode (b64encode b) = some b := by
  rw [base64Decode, b64encode_filter, b64decodeBlocks_encode b hb]

/-! ### Fields and colon-splitting lemmas -/

/-- On whitespace-free input the worker yields one single word. -/
theorem fieldsAux_nospace : ∀ (t acc : List Nat),
    (∀ c ∈ t, isSpaceByte c = false) → (acc = [] → t ≠ []) →
    fieldsAux t acc = [acc.reverse ++ t]
  | [], acc, _, hne => by
    have h : ¬acc = [] := fun h => (hne h) rfl
    simp [fieldsAux, h]
  | c :: rest, acc, ht, _ => by
    have hc : isSpaceByte c = false := ht c (by simp)
    have ih := fieldsAux_nospace rest (c :: acc)
      (fun d hd => ht d (by simp [hd])) (by simp)
    simp [fieldsAux, hc, ih]

/-- `strings.Fields` of `"Basic " + token` for a non-empty
whitespace-free token. -/
theorem fields_basicSpace (enc : List Nat) (h1 : enc ≠ [])
    (h2 : ∀ c ∈ enc, isSpaceByte c = false) :
    fields ([66, 97, 115, 105, 99, 32] ++ enc) = [basicLit, enc] := by
  have h := fieldsAux_nospace enc [] h2 (fun _ => h1)
  simp only [List.reverse_nil, List.nil_append] at h
  simp [fields, fieldsAux, isSpaceByte, basicLit, h]

/-- Splitting at the first colon of `u ++ ":" ++ p` recovers `(u, p)`
when `u` is colon-free. -/
theorem breakColon_append : ∀ (u p : List Nat), 58 ∉ u →
    breakColon (u ++ 58 :: p) = some (u, p)
  | [], p, _ => by simp [breakColon]
  | c :: u', p, h => by
    have hc : ¬c = 58 := fun e => h (by simp [e])
    have ih := breakColon_append u' p (fun hm => h (by simp [hm]))
    simp [breakColon, hc, ih]

/-- C4: Basic Auth round-trip — for every colon-free username and
every password (colons allowed), parsing the header built by
`BasicAuthHeader` returns exactly the original pair. -/
theorem basicAuth_roundtrip (u p : List Nat) (hu : 58 ∉ u)
    (hub : ∀ c ∈ u, c < 256) (hpb : ∀ c ∈ p, c < 256) :
    parseBasicAuthHeader (basicAuthHeader u p) = .ok (u, p) := by
  have hbytes : ∀ c ∈ u ++ 58 :: p, c < 256 := by
    intro c hc
    rcases List.mem_append.mp hc with h | h
    · exact hub c h
    · rcases List.mem_cons.mp h with rfl | h
      · omega
      · exact hpb c h
  have hne : u ++ 58 :: p ≠ [] := by simp
  have henc : b64encode (u ++ 58 :: p) ≠ [] := b64encode_ne_nil _ hne
  have hnospace : ∀ c ∈ b64encode (u ++ 58 :: p), isSpaceByte c = false := by
    intro c hc
    have := b64encode_mem_ge _ c hc
    simp [isSpaceByte]
    omega
  have hfields := fields_basicSpace _ henc hnospace
  simp only [List.cons_append, List.nil_append] at hfields
  have hdec := base64Decode_encode _ hbytes
  have hsplit : splitN2Colon (u ++ 58 :: p) = [u, p] := by
    simp [splitN2Colon, breakColon_append u p hu]
  simp [parseBasicAuthHeader, basicAuthHeader, headerGet, hfields, hdec, hsplit]

/-- Witness for C4: `("alice", "pa:ss")` survives the round-trip. -/
theorem basicAuth_roundtrip_witness :
    parseBasicAuthHeader (basicAuthHeader
        [97, 108, 105, 99, 101] [112, 97, 58, 115, 115]) =
      .ok ([97, 108, 105, 99, 101], [112, 97, 58, 115, 115]) :=
  basicAuth_roundtrip [97, 108, 105, 99, 101] [112, 97, 58, 115, 115]
    (by decide) (by decide) (by decide)

/-- A successful colon split decomposes the input at its first colon:
the prefix is colon-free. -/
theorem breakColon_some_eq : ∀ (s u p : List Nat),
    breakColon s = some (u, p) → s = u ++ 58 :: p ∧ 58 ∉ u
  | [], u, p, h => by simp [breakColon] at h
  | c :: rest, u, p, h => by
    by_cases hc : c = 58
    · subst hc
      simp [breakColon] at h
      obtain ⟨rfl, rfl⟩ := h
      simp
    · simp only [breakColon, if_neg hc] at h
      cases hbc : breakColon rest with
      | none => rw [hbc] at h; cases h
      | some up =>
        obtain ⟨u', p'⟩ := up
        rw [hbc] at h
        simp only [Option.some.injEq, Prod.mk.injEq] at h
        obtain ⟨h1, h2⟩ := h
        subst h1
        subst h2
        obtain ⟨heq, hnotin⟩ := breakColon_some_eq rest u' p' hbc
        subst heq
        refine ⟨rfl, ?_⟩
        simp only [List.mem_cons, not_or]
        exact ⟨fun e => hc e.symm, hnotin⟩

/-- A failed colon split means no colon occurs. -/
theorem breakColon_none_notMem : ∀ (s : List Nat),
    breakColon s = none → 58 ∉ s
  | [], _, hm => by simp at hm
  | c :: rest, h, hm => by
    by_cases hc : c = 58
    · subst hc; simp [breakColon] at h
    · simp only [breakColon, if_neg hc] at h
      cases hbc : breakColon rest with
      | some up => obtain ⟨u, p⟩ := up; rw [hbc] at h; cases h
      | none =>
        rcases List.mem_cons.mp hm with e | hm'
        · exact hc e.symm
        · exact breakColon_none_notMem rest hbc hm'

/-- C5: `ParseBasicAuthHeader` fails exactly when the header value
does not split into the two fields `["Basic", token]` with a valid
base64 token whose payload contains a colon (absence and emptiness of
the header fall under the field-count condition); on success the
decoded payload is split at its first colon, the username being the
colon-free prefix and the password the (possibly colon-bearing)
remainder. -/
theorem parse_error_iff (vals : List (List Nat)) :
    ((∃ e, parseBasicAuthHeader vals = .error e) ↔
      (fields (headerGet vals)).length ≠ 2
      ∨ (fields (headerGet vals)).headD [] ≠ basicLit
      ∨ (∃ tok, fields (headerGet vals) = [basicLit, tok]
          ∧ base64Decode tok = none)
      ∨ (∃ tok payload, fields (headerGet vals) = [basicLit, tok]
          ∧ base64Decode tok = some payload ∧ 58 ∉ payload))
    ∧ (headerGet vals = [] → ∃ e, parseBasicAuthHeader vals = .error e)
    ∧ (∀ u p, parseBasicAuthHeader vals = .ok (u, p) →
        ∃ tok, fields (headerGet vals) = [basicLit, tok]
          ∧ base64Decode tok = some (u ++ 58 :: p) ∧ 58 ∉ u) := by
  rcases hf : fields (headerGet vals) with - | ⟨p0, - | ⟨p1, - | ⟨p2, ps⟩⟩⟩
  · refine ⟨iff_of_true ⟨.invalidHeader, by simp [parseBasicAuthHeader, hf]⟩
      (by simp), fun _ => ⟨.invalidHeader, by simp [parseBasicAuthHeader, hf]⟩,
      fun u p h => ?_⟩
    simp [parseBasicAuthHeader, hf] at h
  · refine ⟨iff_of_true ⟨.invalidHeader, by simp [parseBasicAuthHeader, hf]⟩
      (by simp), fun _ => ⟨.invalidHeader, by simp [parseBasicAuthHeader, hf]⟩,
      fun u p h => ?_⟩
    simp [parseBasicAuthHeader, hf] at h
  · by_cases hb : p0 = basicLit
    · subst hb
      cases hd : base64Decode p1 with
      | none =>
        refine ⟨iff_of_true
          ⟨.invalidEncoding, by simp [parseBasicAuthHeader, hf, hd]⟩
          (Or.inr (Or.inr (Or.inl ⟨p1, rfl, hd⟩))),
          fun _ => ⟨.invalidEncoding, by simp [parseBasicAuthHeader, hf, hd]⟩,
          fun u p h => ?_⟩
        simp [parseBasicAuthHeader, hf, hd] at h
      | some payload =>
        cases hbc : breakColon payload with
        | none =>
          have hni : 58 ∉ payload := breakColon_none_notMem payload hbc
          refine ⟨iff_of_true
            ⟨.invalidContents,
              by simp [parseBasicAuthHeader, hf, hd, splitN2Colon, hbc]⟩
            (Or.inr (Or.inr (Or.inr ⟨p1, payload, rfl, hd, hni⟩))),
            fun _ => ⟨.invalidContents,
              by simp [parseBasicAuthHeader, hf, hd, splitN2Colon, hbc]⟩,
            fun u p h => ?_⟩
          simp [parseBasicAuthHeader, hf, hd, splitN2Colon, hbc] at h
        | some up =>
          obtain ⟨u0, q0⟩ := up
          obtain ⟨heq, hnotin⟩ := breakColon_some_eq payload u0 q0 hbc
          have hok : parseBasicAuthHeader vals = .ok (u0, q0) := by
            simp [parseBasicAuthHeader, hf, hd, splitN2Colon, hbc]
          have hin : 58 ∈ payload := by rw [heq]; simp
          refine ⟨iff_of_false (by simp [hok]) ?_, fun h0 => ?_, fun u p h => ?_⟩
          · push_neg
            refine ⟨by simp, by simp, fun tok htok => ?_,
              fun tok payload' htok hdec => ?_⟩
            · simp only [List.cons.injEq, and_true, true_and] at htok
              rw [← htok, hd]
              simp
            · simp only [List.cons.injEq, and_true, true_and] at htok
              rw [← htok, hd] at hdec
              simp only [Option.some.injEq] at hdec
              rw [← hdec]
              simpa using hin
          · rw [h0] at hf
            simp [fields, fieldsAux] at hf
          · rw [hok] at h
            simp only [Except.ok.injEq, Prod.mk.injEq] at h
            obtain ⟨rfl, rfl⟩ := h
            exact ⟨p1, rfl, by rw [hd, heq], hnotin⟩
    · refine ⟨iff_of_true ⟨.invalidHeader, by simp [parseBasicAuthHeader, hf, hb]⟩
        (Or.inr (Or.inl (by simpa using hb))),
        fun _ => ⟨.invalidHeader, by simp [parseBasicAuthHeader, hf, hb]⟩,
        fun u p h => ?_⟩
      simp [parseBasicAuthHeader, hf, hb] at h
  · refine ⟨iff_of_true ⟨.invalidHeader, by simp [parseBasicAuthHeader, hf]⟩
      (by simp), fun _ => ⟨.invalidHeader, by simp [parseBasicAuthHeader, hf]⟩,
      fun u p h => ?_⟩
    simp [parseBasicAuthHeader, hf] at h

/-- Witness for C5: the concrete header `"Basic QTpi"` parses to
`("A", "b")` and its characterization holds there. -/
theorem parse_error_iff_witness :
    ∃ tok, fields (headerGet [[66, 97, 115, 105, 99, 32, 81, 84, 112, 105]]) =
        [basicLit, tok]
      ∧ base64Decode tok = some ([65] ++ 58 :: [98]) ∧ 58 ∉ [65] :=
  (parse_error_iff [[66, 97, 115, 105, 99, 32, 81, 84, 112, 105]]).2.2
    [65] [98] (by rfl)

/-- C6 counterexample: the header value `"Basic  QTpi"` — two spaces
between the scheme and the token — is accepted, not rejected: it
parses to `("A", "b")`. -/
theorem extra_whitespace_accepted :
    parseBasicAuthHeader [[66, 97, 115, 105, 99, 32, 32, 81, 84, 112, 105]] =
      .ok ([65], [98]) := by rfl

/-- C6 amended: the scheme comparison is byte-exact — any first field
differing from `"Basic"` (wrong case included) is rejected — but extra
whitespace between scheme and token is tolerated, because
`strings.Fields` splits on whitespace runs. -/
theorem wrongCase_rejected_extraSpace_tolerated :
    (∀ (vals : List (List Nat)) (w tok : List Nat),
        fields (headerGet vals) = [w, tok] → w ≠ basicLit →
        ∃ e, parseBasicAuthHeader vals = .error e)
    ∧ parseBasicAuthHeader [[66, 97, 115, 105, 99, 32, 32, 81, 84, 112, 105]] =
        .ok ([65], [98]) := by
  refine ⟨fun vals w tok hf hw => ⟨.invalidHeader, ?_⟩, rfl⟩
  simp [parseBasicAuthHeader, hf, hw]

/-- Witness for the amended C6: the lower-case header `"basic QTpi"`
is rejected. -/
theorem wrongCase_rejected_extraSpace_tolerated_witness :
    ∃ e, parseBasicAuthHeader [[98, 97, 115, 105, 99, 32, 81, 84, 112, 105]] =
      .error e :=
  wrongCase_rejected_extraSpace_tolerated.1
    [[98, 97, 115, 105, 99, 32, 81, 84, 112, 105]]
    [98, 97, 115, 105, 99] [81, 84, 112, 105] (by rfl) (by decide)

/-- C7: for every address that splits as `host:port`, `isLocalAddr` is
true exactly when the host is the literal `"localhost"` or parses as a
loopback IP; every malformed address (no port, unparsable) yields
false (fail closed); and an IP is loopback exactly when its IPv4 form
has first octet 127 (the 127.0.0.0/8 block) or it is `::1`. -/
theorem isLocalAddr_iff :
    (∀ (addr host port : List Nat), splitHostPort addr = some (host, port) →
      (isLocalAddr addr = true ↔
        host = localhostBytes
        ∨ ∃ ip, parseIP host = some ip ∧ isLoopback ip = true))
    ∧ (∀ addr, splitHostPort addr = none → isLocalAddr addr = false)
    ∧ (∀ ip, isLoopback ip = true ↔
        (∃ ip4, ipTo4 ip = some ip4 ∧ ip4.headD 0 = 127)
        ∨ (ipTo4 ip = none ∧ ip = ipv6Loopback)) := by
  refine ⟨fun addr host port hs => ?_, fun addr h => by simp [isLocalAddr, h],
    fun ip => ?_⟩
  · cases hp : parseIP host with
    | none => simp [isLocalAddr, hs, ipIsLoopback, hp]
    | some ip => simp [isLocalAddr, hs, ipIsLoopback, hp]
  · unfold isLoopback
    cases h4 : ipTo4 ip with
    | none => simp [h4]
    | some ip4 => simp [h4]

/-- Witness for C7 on the spec's examples: `"localhost:80"`,
`"127.0.0.1:8080"` and `"[::1]:443"` are local, the port-less
`"bad-addr"` is not. -/
theorem isLocalAddr_iff_witness :
    isLocalAddr [108, 111, 99, 97, 108, 104, 111, 115, 116, 58, 56, 48] = true
    ∧ isLocalAddr [49, 50, 55, 46, 48, 46, 48, 46, 49, 58, 56, 48, 56, 48] = true
    ∧ isLocalAddr [91, 58, 58, 49, 93, 58, 52, 52, 51] = true
    ∧ isLocalAddr [98, 97, 100, 45, 97, 100, 100, 114] = false :=
  ⟨(isLocalAddr_iff.1 _ [108, 111, 99, 97, 108, 104, 111, 115, 116]
      [56, 48] (by rfl)).mpr (Or.inl rfl),
    (isLocalAddr_iff.1 _ [49, 50, 55, 46, 48, 46, 48, 46, 49]
      [56, 48, 56, 48] (by rfl)).mpr
      (Or.inr ⟨[0, 0, 0, 0, 0, 0, 0, 0, 0, 0, 255, 255, 127, 0, 0, 1],
        by rfl, by rfl⟩),
    (isLocalAddr_iff.1 _ [58, 58, 49] [52, 52, 51] (by rfl)).mpr
      (Or.inr ⟨[0, 0, 0, 0, 0, 0, 0, 0, 0, 0, 0, 0, 0, 0, 0, 1],
        by rfl, by rfl⟩),
    isLocalAddr_iff.2.1 _ (by rfl)⟩

end GoUtils
